import Mathlib

/-
Verification of the SQL tokenizer (core/Tokenizer.ts of the sql-formatter
repository).

Embedding conventions:
* JS strings are modelled as lists of Unicode code points (`Str := List Nat`).
* Every anchored regular expression of the source (`/^(...)/`) becomes a
  function `Str → Option Str` returning the text captured by group 1, or
  `none` when the pattern does not match at the start of the string.
* The regular-expression factory (`regexFactory.ts`) and `equalizeWhitespace`
  (`utils.ts`) are collaborators outside the analysed source; their
  definitions are modelled from the specification and marked as such.
* `tokenize`'s `while` loop becomes a fuel-indexed recursion; the fuel
  `input.length + 1` is shown sufficient for non-stalling matcher tables.
-/

/-- Strings as lists of Unicode code points (the JS string model). -/
abbrev Str := List Nat

/-- Code points of a Lean string literal, used to write concrete inputs. -/
def codes (s : String) : Str := s.data.map Char.toNat

/-- JS regex class `\s` (the WHATWG white-space and line-terminator set). -/
def isJsSpace (n : Nat) : Bool :=
  decide (n = 9 ∨ n = 10 ∨ n = 11 ∨ n = 12 ∨ n = 13 ∨ n = 32 ∨ n = 160 ∨ n = 5760 ∨
    (8192 ≤ n ∧ n ≤ 8202) ∨ n = 8232 ∨ n = 8233 ∨ n = 8239 ∨ n = 8287 ∨
    n = 12288 ∨ n = 65279)

/-- JS regex class `\w`: ASCII letters, digits and underscore. -/
def isWordCode (n : Nat) : Bool :=
  decide ((48 ≤ n ∧ n ≤ 57) ∨ (65 ≤ n ∧ n ≤ 90) ∨ (97 ≤ n ∧ n ≤ 122) ∨ n = 95)

/-- JS regex class `[0-9]`. -/
def isDigitCode (n : Nat) : Bool := decide (48 ≤ n ∧ n ≤ 57)

/-- JS regex class `[0-9a-fA-F]`. -/
def isHexDigitCode (n : Nat) : Bool :=
  decide ((48 ≤ n ∧ n ≤ 57) ∨ (65 ≤ n ∧ n ≤ 70) ∨ (97 ≤ n ∧ n ≤ 102))

/-- JS regex class `[01]`. -/
def isBinDigitCode (n : Nat) : Bool := decide (n = 48 ∨ n = 49)

/-- JS `String.prototype.toUpperCase` on a single ASCII code point. -/
def jsToUpperCode (n : Nat) : Nat := if 97 ≤ n ∧ n ≤ 122 then n - 32 else n

/-- Class `[a-zA-Z0-9_$]` used for named-placeholder keys (Tokenizer.ts line 121). -/
def isNamedPlaceholderCode (n : Nat) : Bool := isWordCode n || n == 36

/-- The `TokenType` enumeration of token.ts, as referenced by Tokenizer.ts. -/
inductive TokenType where
  | IDENT
  | STRING
  | RESERVED_KEYWORD
  | RESERVED_DEPENDENT_CLAUSE
  | RESERVED_LOGICAL_OPERATOR
  | RESERVED_COMMAND
  | RESERVED_BINARY_COMMAND
  | RESERVED_JOIN_CONDITION
  | OPERATOR
  | BLOCK_START
  | BLOCK_END
  | RESERVED_CASE_START
  | RESERVED_CASE_END
  | LINE_COMMENT
  | BLOCK_COMMENT
  | NUMBER
  | PLACEHOLDER
  | EOF
deriving DecidableEq, Repr

/-- The `Token` record: `key` and `whitespaceBefore` are the optional fields
of the TS interface; `match` never sets them, `tokenize` fills in
`whitespaceBefore` and the placeholder matcher fills in `key`. -/
structure Token where
  type : TokenType
  text : Str
  value : Str
  key : Option Str := none
  whitespaceBefore : Str := []
deriving DecidableEq, Repr

/-- A compiled anchored regex: the capture of group 1 at the string head. -/
abbrev Matcher := Str → Option Str

/-- `type PlaceholderPattern = { regex: RegExp; parseKey: (s: string) => string }`. -/
structure PlaceholderPattern where
  regex : Matcher
  parseKey : Str → Str

/-- The state a constructed `Tokenizer` instance holds. -/
structure Tokenizer where
  REGEX_MAP : TokenType → Matcher
  quotedIdentRegex : Matcher
  placeholderPatterns : List PlaceholderPattern
  preprocess : List Token → List Token

/-- Result of a `tokenize` call: the token list, the thrown parse error
(carrying `input.slice(0, 100)`), or exhaustion of the recursion fuel
(impossible for non-stalling matcher tables, see the termination theorem). -/
inductive TokResult where
  | ok : List Token → TokResult
  | parseError : Str → TokResult
  | outOfFuel : TokResult
deriving DecidableEq, Repr

/-- Accumulator pass of `equalizeWhitespace`: the flag records whether the
previous character was whitespace (a run already being collapsed). -/
def eqWsAux : Bool → Str → Str
  | _, [] => []
  | prevWs, c :: rest =>
    if isJsSpace c then
      if prevWs then eqWsAux true rest else 32 :: eqWsAux true rest
    else c :: eqWsAux false rest

/-- Modelled from the spec: `equalizeWhitespace` of utils.ts is not part of
the analysed source; the spec describes it as collapsing every whitespace
run to a single space. -/
def equalizeWhitespace (s : Str) : Str := eqWsAux false s

/-- `const toCanonicalKeyword = (text) => equalizeWhitespace(text.toUpperCase())`
(Tokenizer.ts line 8). -/
def toCanonicalKeyword (text : Str) : Str :=
  equalizeWhitespace (text.map jsToUpperCode)

/-- `const NULL_REGEX = /(?!)/` — matches nothing (Tokenizer.ts line 6). -/
def NULL_REGEX : Matcher := fun _ => none

/-- `export const WHITESPACE_REGEX = /^(\s+)/u` (Tokenizer.ts line 5). -/
def WHITESPACE_REGEX (input : Str) : Option Str :=
  let run := input.takeWhile isJsSpace
  if run.isEmpty then none else some run

/-- Lazy scan of `[^]*?(?:\*\/|$)`: everything up to and including the first
star-slash, or the whole rest of the string if it never occurs. -/
def blockCommentScan : Str → Str
  | [] => []
  | 42 :: 47 :: _ => [42, 47]
  | c :: rest => c :: blockCommentScan rest

/-- `[TokenType.BLOCK_COMMENT]: /^(\/\*[^]*?(?:\*\/|$))/u` (Tokenizer.ts line 109). -/
def BLOCK_COMMENT_REGEX : Matcher := fun input =>
  match input with
  | 47 :: 42 :: rest => some (47 :: 42 :: blockCommentScan rest)
  | _ => none

/-- Case-insensitive match of a literal word at the head of the input,
returning the input's own spelling of it. -/
def matchLiteralCI : Str → Str → Option Str
  | [], _ => some []
  | _ :: _, [] => none
  | p :: ps, c :: rest =>
    if jsToUpperCode c == jsToUpperCode p then
      (matchLiteralCI ps rest).map (fun m => c :: m)
    else none

/-- The JS `\b` after a word character: next character absent or non-word. -/
def wordBoundaryOk (rest : Str) : Bool :=
  match rest with
  | [] => true
  | c :: _ => !isWordCode c

/-- `[TokenType.RESERVED_CASE_START]: /^(CASE)\b/iu` (Tokenizer.ts line 106). -/
def RESERVED_CASE_START_REGEX : Matcher := fun input =>
  match matchLiteralCI (codes "CASE") input with
  | some m => if wordBoundaryOk (input.drop m.length) then some m else none
  | none => none

/-- `[TokenType.RESERVED_CASE_END]: /^(END)\b/iu` (Tokenizer.ts line 107). -/
def RESERVED_CASE_END_REGEX : Matcher := fun input =>
  match matchLiteralCI (codes "END") input with
  | some m => if wordBoundaryOk (input.drop m.length) then some m else none
  | none => none

/-- The optional sign `[-+]?` of the exponent: the consumed sign (possibly
empty) and the remainder. -/
def numberSignSplit (rest : Str) : Str × Str :=
  match rest with
  | c :: r => if c == 43 || c == 45 then ([c], r) else ([], rest)
  | [] => ([], [])

/-- The optional fraction `(\.[0-9]+)?` inside the exponent: a dot needs at
least one following digit here, otherwise nothing is consumed. -/
def numberExpFrac (rest3 : Str) : Str :=
  match rest3 with
  | 46 :: r =>
    if (r.takeWhile isDigitCode).isEmpty then [] else 46 :: r.takeWhile isDigitCode
  | _ => []

/-- The exponent part `([eE][-+]?[0-9]+(\.[0-9]+)?)?` of the number regex:
returns the consumed text, `[]` when the optional group does not match. -/
def numberExponentOpt (s : Str) : Str :=
  match s with
  | e :: rest =>
    if e == 101 || e == 69 then
      if ((numberSignSplit rest).2.takeWhile isDigitCode).isEmpty then []
      else
        e :: ((numberSignSplit rest).1 ++
          (numberSignSplit rest).2.takeWhile isDigitCode ++
          numberExpFrac ((numberSignSplit rest).2.drop
            ((numberSignSplit rest).2.takeWhile isDigitCode).length))
    else []
  | [] => []

/-- The optional fraction `(\.[0-9]*)?` of the main decimal branch: a dot
may be followed by zero digits. -/
def numberFrac (s1 : Str) : Str :=
  match s1 with
  | 46 :: r => 46 :: r.takeWhile isDigitCode
  | _ => []

/-- The decimal branch `[0-9]+(\.[0-9]*)?([eE][-+]?[0-9]+(\.[0-9]+)?)?`
of the number regex. -/
def numberDecimalTail (s : Str) : Option Str :=
  if (s.takeWhile isDigitCode).isEmpty then none
  else
    some (s.takeWhile isDigitCode ++
      numberFrac (s.drop (s.takeWhile isDigitCode).length) ++
      numberExponentOpt ((s.drop (s.takeWhile isDigitCode).length).drop
        (numberFrac (s.drop (s.takeWhile isDigitCode).length)).length))

/-- `[TokenType.NUMBER]:
  /^(0x[0-9a-fA-F]+|0b[01]+|(-\s*)?[0-9]+(\.[0-9]*)?([eE][-+]?[0-9]+(\.[0-9]+)?)?)/u`
(Tokenizer.ts lines 110-111). Alternatives are tried left to right as in JS. -/
def NUMBER_REGEX : Matcher := fun input =>
  match input with
  | 48 :: 120 :: rest =>
    if (rest.takeWhile isHexDigitCode).isEmpty then numberDecimalTail input
    else some (48 :: 120 :: rest.takeWhile isHexDigitCode)
  | 48 :: 98 :: rest =>
    if (rest.takeWhile isBinDigitCode).isEmpty then numberDecimalTail input
    else some (48 :: 98 :: rest.takeWhile isBinDigitCode)
  | 45 :: rest =>
    match numberDecimalTail (rest.drop (rest.takeWhile isJsSpace).length) with
    | some t => some (45 :: (rest.takeWhile isJsSpace ++ t))
    | none => none
  | _ => numberDecimalTail input

/-- Case-sensitive literal prefix match, returning the consumed text. -/
def matchLiteral : Str → Str → Option Str
  | [], _ => some []
  | _ :: _, [] => none
  | p :: ps, c :: rest =>
    if c == p then (matchLiteral ps rest).map (fun m => c :: m) else none

/-- First success of `f` over a list, in list order. -/
def firstSome {α β : Type} (f : α → Option β) : List α → Option β
  | [] => none
  | a :: rest =>
    match f a with
    | some b => some b
    | none => firstSome f rest

/-- Scan the body of a quoted span after its opening quote: a backslash
escapes the next character, the first unescaped closing quote ends the span
(included); an unterminated span fails. -/
def quoteScan (q : Nat) : Str → Option Str
  | [] => none
  | c :: rest =>
    if c == q then some [c]
    else if c == 92 then
      match rest with
      | [] => none
      | d :: rest2 => (quoteScan q rest2).map (fun m => c :: d :: m)
    else (quoteScan q rest).map (fun m => c :: m)

/-- Modelled from the spec: `regexFactory.createQuoteRegex` is outside the
analysed source. A quoted string/identifier is an enabled quote character,
a body with backslash escapes, and the matching closing quote. -/
def createQuoteRegex (quoteTypes : List Nat) : Matcher := fun input =>
  match input with
  | c :: rest =>
    if c ∈ quoteTypes then (quoteScan c rest).map (fun m => c :: m) else none
  | [] => none

/-- Modelled from the spec: `regexFactory.createQuotePattern`, the
quoted-identifier body pattern reused inside quoted placeholders (same
shape as `createQuoteRegex`). -/
def createQuotePattern (quoteTypes : List Nat) : Str → Option Str :=
  createQuoteRegex quoteTypes

/-- Modelled from the spec: `regexFactory.createIdentRegex` — a plain
identifier is a nonempty run of word characters or configured special
identifier characters. -/
def createIdentRegex (specialIdentChars : List Nat) : Matcher := fun input =>
  let run := input.takeWhile (fun c => isWordCode c || c ∈ specialIdentChars)
  if run.isEmpty then none else some run

/-- One reserved word or phrase, matched case-insensitively; a space in the
configured phrase matches a nonempty whitespace run of the input. -/
def matchPhraseCI : Str → Str → Option Str
  | [], _ => some []
  | p :: ps, input =>
    if isJsSpace p then
      let run := input.takeWhile isJsSpace
      if run.isEmpty then none
      else (matchPhraseCI ps (input.drop run.length)).map (fun m => run ++ m)
    else
      match input with
      | [] => none
      | c :: rest =>
        if jsToUpperCode c == jsToUpperCode p then
          (matchPhraseCI ps rest).map (fun m => c :: m)
        else none

/-- Modelled from the spec: `regexFactory.createReservedWordRegex` — tries the
configured words/phrases in order, case-insensitively, with flexible internal
whitespace, requiring a trailing word boundary. -/
def createReservedWordRegex (words : List Str) : Matcher := fun input =>
  firstSome
    (fun w =>
      match matchPhraseCI w input with
      | some m => if wordBoundaryOk (input.drop m.length) then some m else none
      | none => none)
    words

/-- Modelled from the spec: `regexFactory.createOperatorRegex` — the
multi-character operators are tried first, then any single character of the
built-in punctuation set. -/
def createOperatorRegex (singleChars : List Nat) (multiOps : List Str) : Matcher :=
  fun input =>
    match firstSome (fun w => matchLiteral w input) multiOps with
    | some m => some m
    | none =>
      match input with
      | c :: _ => if c ∈ singleChars then some [c] else none
      | [] => none

/-- Modelled from the spec: `regexFactory.createParenRegex` — matches one of
the enabled bracket strings literally. -/
def createParenRegex (parens : List Str) : Matcher := fun input =>
  firstSome (fun w => matchLiteral w input) parens

/-- Modelled from the spec: `regexFactory.createLineCommentRegex` — an enabled
line-comment marker followed by the rest of the line (the newline itself is
not part of the captured text). -/
def createLineCommentRegex (markers : List Str) : Matcher := fun input =>
  match firstSome (fun w => matchLiteral w input) markers with
  | some m =>
    some (m ++ (input.drop m.length).takeWhile
      (fun c => !(c == 10 || c == 13 || c == 8232 || c == 8233)))
  | none => none

/-- Modelled from the spec: `regexFactory.createPlaceholderRegex` — `none`
when no prefix is configured (the style is then omitted from the pattern
list), otherwise a configured prefix character followed by the style's key
pattern. -/
def createPlaceholderRegex (types : List Nat) (pattern : Str → Option Str) :
    Option Matcher :=
  if types.isEmpty then none
  else
    some fun input =>
      match input with
      | c :: rest =>
        if c ∈ types then (pattern rest).map (fun m => c :: m) else none
      | [] => none

/-- `private preprocess = (tokens) => tokens` — the default hook
(Tokenizer.ts line 40). -/
def defaultPreprocess : List Token → List Token := fun tokens => tokens

/-- `private getWhitespace(input)` (Tokenizer.ts lines 186-189). -/
def Tokenizer.getWhitespace (_t : Tokenizer) (input : Str) : Str :=
  match WHITESPACE_REGEX input with
  | some m => m
  | none => []

/-- `private match({input, type, regex, transform})` (Tokenizer.ts lines
291-311); named `matchRx` because `match` is a Lean keyword. -/
def Tokenizer.matchRx (_t : Tokenizer) (input : Str) (type : TokenType)
    (regex : Matcher) (transform : Str → Str) : Option Token :=
  match regex input with
  | some m => some { type := type, text := m, value := transform m }
  | none => none

/-- `private matchToken(tokenType, input)` (Tokenizer.ts lines 275-282). -/
def Tokenizer.matchToken (t : Tokenizer) (tokenType : TokenType) (input : Str) :
    Option Token :=
  t.matchRx input tokenType (t.REGEX_MAP tokenType) (fun s => s)

/-- `private matchReservedToken(tokenType, input)` (Tokenizer.ts lines 265-272). -/
def Tokenizer.matchReservedToken (t : Tokenizer) (tokenType : TokenType)
    (input : Str) : Option Token :=
  t.matchRx input tokenType (t.REGEX_MAP tokenType) toCanonicalKeyword

/-- `private matchQuotedIdentToken(input)` (Tokenizer.ts lines 231-238). -/
def Tokenizer.matchQuotedIdentToken (t : Tokenizer) (input : Str) : Option Token :=
  t.matchRx input TokenType.IDENT t.quotedIdentRegex (fun s => s)

/-- `private getEscapedPlaceholderKey({key, quoteChar})` (Tokenizer.ts lines
227-229): every backslash-escaped occurrence of the quote character is
un-escaped, scanning left to right. -/
def getEscapedPlaceholderKey (key : Str) (quoteChar : Nat) : Str :=
  match key with
  | [] => []
  | [c] => [c]
  | c :: d :: rest2 =>
    if c == 92 then
      if d == quoteChar then quoteChar :: getEscapedPlaceholderKey rest2 quoteChar
      else c :: getEscapedPlaceholderKey (d :: rest2) quoteChar
    else c :: getEscapedPlaceholderKey (d :: rest2) quoteChar

/-- Inner loop of `matchPlaceholderToken` over `placeholderPatterns`. -/
def matchPlaceholderLoop (t : Tokenizer) (input : Str) :
    List PlaceholderPattern → Option Token
  | [] => none
  | p :: ps =>
    match t.matchRx input TokenType.PLACEHOLDER p.regex (fun s => s) with
    | some token => some { token with key := some (p.parseKey token.value) }
    | none => matchPlaceholderLoop t input ps

/-- `private matchPlaceholderToken(input)` (Tokenizer.ts lines 212-225). -/
def Tokenizer.matchPlaceholderToken (t : Tokenizer) (input : Str) : Option Token :=
  matchPlaceholderLoop t input t.placeholderPatterns

/-- `private matchReservedWordToken(input, previousToken)` (Tokenizer.ts lines
244-262): the dot guard, then the prioritised reserved subcategories. -/
def Tokenizer.matchReservedWordToken (t : Tokenizer) (input : Str)
    (previousToken : Option Token) : Option Token :=
  if previousToken.map Token.value = some (codes ".") then none
  else
    t.matchReservedToken TokenType.RESERVED_CASE_START input <|>
    t.matchReservedToken TokenType.RESERVED_CASE_END input <|>
    t.matchReservedToken TokenType.RESERVED_COMMAND input <|>
    t.matchReservedToken TokenType.RESERVED_BINARY_COMMAND input <|>
    t.matchReservedToken TokenType.RESERVED_DEPENDENT_CLAUSE input <|>
    t.matchReservedToken TokenType.RESERVED_LOGICAL_OPERATOR input <|>
    t.matchReservedToken TokenType.RESERVED_KEYWORD input <|>
    t.matchReservedToken TokenType.RESERVED_JOIN_CONDITION input

/-- `private getNextToken(input, previousToken)` (Tokenizer.ts lines 192-206):
the priority cascade, first match wins. -/
def Tokenizer.getNextToken (t : Tokenizer) (input : Str)
    (previousToken : Option Token) : Option Token :=
  t.matchToken TokenType.LINE_COMMENT input <|>
  t.matchToken TokenType.BLOCK_COMMENT input <|>
  t.matchToken TokenType.STRING input <|>
  t.matchQuotedIdentToken input <|>
  t.matchToken TokenType.BLOCK_START input <|>
  t.matchToken TokenType.BLOCK_END input <|>
  t.matchPlaceholderToken input <|>
  t.matchToken TokenType.NUMBER input <|>
  t.matchReservedWordToken input previousToken <|>
  t.matchToken TokenType.IDENT input <|>
  t.matchToken TokenType.OPERATOR input

/-- The `while` loop of `tokenize` (Tokenizer.ts lines 160-183) as a
fuel-indexed recursion; one fuel unit per loop iteration. -/
def Tokenizer.tokenizeLoop (t : Tokenizer) :
    Nat → Str → List Token → Option Token → TokResult
  | 0, _, _, _ => .outOfFuel
  | fuel + 1, input, tokens, lastToken =>
    if input = [] then .ok tokens
    else
      let whitespaceBefore := t.getWhitespace input
      let input2 := input.drop whitespaceBefore.length
      if input2 = [] then t.tokenizeLoop fuel input2 tokens lastToken
      else
        match t.getNextToken input2 lastToken with
        | none => .parseError (input2.take 100)
        | some token =>
          t.tokenizeLoop fuel (input2.drop token.text.length)
            (tokens ++ [{ token with whitespaceBefore := whitespaceBefore }]) token

/-- `public tokenize(input)` (Tokenizer.ts lines 160-183): run the scan loop,
then pass the tokens through the configured preprocess hook. -/
def Tokenizer.tokenize (t : Tokenizer) (input : Str) : TokResult :=
  match t.tokenizeLoop (input.length + 1) input [] none with
  | .ok tokens => .ok (t.preprocess tokens)
  | r => r

/-- The `TokenizerOptions` configuration interface (Tokenizer.ts lines 11-30);
optional TS fields are `Option`s, with the constructor applying the same
defaults as the source's `??` expressions. -/
structure TokenizerOptions where
  reservedKeywords : List Str := []
  reservedCommands : List Str := []
  reservedLogicalOperators : Option (List Str) := none
  reservedDependentClauses : List Str := []
  reservedBinaryCommands : List Str := []
  reservedJoinConditions : Option (List Str) := none
  stringTypes : List Nat := []
  identifierTypes : List Nat := []
  blockStart : Option (List Str) := none
  blockEnd : Option (List Str) := none
  positionalPlaceholders : Bool := false
  numberedPlaceholderTypes : Option (List Nat) := none
  namedPlaceholderTypes : Option (List Nat) := none
  quotedPlaceholderTypes : Option (List Nat) := none
  lineCommentTypes : Option (List Str) := none
  specialIdentChars : List Nat := []
  operators : Option (List Str) := none
  preprocess : Option (List Token → List Token) := none

/-- `private excludePatternsWithoutRegexes(patterns)` (Tokenizer.ts lines
147-151): keep only the styles whose regex is present. -/
def excludePatternsWithoutRegexes
    (patterns : List (Option Matcher × (Str → Str))) : List PlaceholderPattern :=
  patterns.filterMap fun p =>
    match p.1 with
    | some r => some { regex := r, parseKey := p.2 }
    | none => none

/-- The built-in single-character operator set of Tokenizer.ts line 97:
plus, minus, slash, star, percent, ampersand, pipe, caret, greater, less,
equals, dot, comma, semicolon, square brackets, curly braces, backtick,
colon, dollar, at-sign. -/
def builtinOperatorChars : List Nat :=
  [43, 45, 47, 42, 37, 38, 124, 94, 62, 60, 61, 46, 44, 59, 91, 93, 123, 125,
   96, 58, 36, 64]

/-- The `Tokenizer` constructor (Tokenizer.ts lines 62-145), wiring the
matcher table, the quoted-identifier matcher and the placeholder pattern
list from a configuration. -/
def mkTokenizer (cfg : TokenizerOptions) : Tokenizer :=
  { REGEX_MAP := fun tokenType =>
      match tokenType with
      | TokenType.IDENT => createIdentRegex cfg.specialIdentChars
      | TokenType.STRING => createQuoteRegex cfg.stringTypes
      | TokenType.RESERVED_KEYWORD => createReservedWordRegex cfg.reservedKeywords
      | TokenType.RESERVED_DEPENDENT_CLAUSE =>
        createReservedWordRegex cfg.reservedDependentClauses
      | TokenType.RESERVED_LOGICAL_OPERATOR =>
        createReservedWordRegex
          (cfg.reservedLogicalOperators.getD [codes "AND", codes "OR"])
      | TokenType.RESERVED_COMMAND => createReservedWordRegex cfg.reservedCommands
      | TokenType.RESERVED_BINARY_COMMAND =>
        createReservedWordRegex cfg.reservedBinaryCommands
      | TokenType.RESERVED_JOIN_CONDITION =>
        createReservedWordRegex
          (cfg.reservedJoinConditions.getD [codes "ON", codes "USING"])
      | TokenType.OPERATOR =>
        createOperatorRegex builtinOperatorChars
          ([codes "<>", codes "<=", codes ">=", codes "!="] ++
            cfg.operators.getD [])
      | TokenType.BLOCK_START => createParenRegex (cfg.blockStart.getD [codes "("])
      | TokenType.BLOCK_END => createParenRegex (cfg.blockEnd.getD [codes ")"])
      | TokenType.RESERVED_CASE_START => RESERVED_CASE_START_REGEX
      | TokenType.RESERVED_CASE_END => RESERVED_CASE_END_REGEX
      | TokenType.LINE_COMMENT =>
        createLineCommentRegex (cfg.lineCommentTypes.getD [codes "--"])
      | TokenType.BLOCK_COMMENT => BLOCK_COMMENT_REGEX
      | TokenType.NUMBER => NUMBER_REGEX
      | TokenType.PLACEHOLDER => NULL_REGEX
      | TokenType.EOF => NULL_REGEX
    quotedIdentRegex := createQuoteRegex cfg.identifierTypes
    placeholderPatterns :=
      excludePatternsWithoutRegexes
        [(createPlaceholderRegex (cfg.namedPlaceholderTypes.getD [])
            (fun s =>
              let run := s.takeWhile isNamedPlaceholderCode
              if run.isEmpty then none else some run),
          fun v => v.drop 1),
         (createPlaceholderRegex (cfg.quotedPlaceholderTypes.getD [])
            (createQuotePattern cfg.identifierTypes),
          fun v =>
            getEscapedPlaceholderKey ((v.drop 2).dropLast) ((v.getLast?).getD 0)),
         (createPlaceholderRegex (cfg.numberedPlaceholderTypes.getD [])
            (fun s =>
              let run := s.takeWhile isDigitCode
              if run.isEmpty then none else some run),
          fun v => v.drop 1),
         ((if cfg.positionalPlaceholders then
             some (fun input =>
               match input with
               | 63 :: _ => some [63]
               | _ => none)
           else none),
          fun v => v.drop 1)]
    preprocess := cfg.preprocess.getD defaultPreprocess }

/-- Specification-side view of the §4.3 priority cascade: the eleven
categories in their fixed priority order, as match attempts. -/
def priorityCascade (t : Tokenizer) (previousToken : Option Token) :
    List (Str → Option Token) :=
  [fun input => t.matchToken TokenType.LINE_COMMENT input,
   fun input => t.matchToken TokenType.BLOCK_COMMENT input,
   fun input => t.matchToken TokenType.STRING input,
   fun input => t.matchQuotedIdentToken input,
   fun input => t.matchToken TokenType.BLOCK_START input,
   fun input => t.matchToken TokenType.BLOCK_END input,
   fun input => t.matchPlaceholderToken input,
   fun input => t.matchToken TokenType.NUMBER input,
   fun input => t.matchReservedWordToken input previousToken,
   fun input => t.matchToken TokenType.IDENT input,
   fun input => t.matchToken TokenType.OPERATOR input]

/-- Specification-side view of the §4.4 reserved-word subcategory order. -/
def reservedCascadeOrder : List TokenType :=
  [TokenType.RESERVED_CASE_START,
   TokenType.RESERVED_CASE_END,
   TokenType.RESERVED_COMMAND,
   TokenType.RESERVED_BINARY_COMMAND,
   TokenType.RESERVED_DEPENDENT_CLAUSE,
   TokenType.RESERVED_LOGICAL_OPERATOR,
   TokenType.RESERVED_KEYWORD,
   TokenType.RESERVED_JOIN_CONDITION]

/-- Reassembly of the scanned text: each token contributes its recorded
leading whitespace followed by its exact matched text. -/
def reassemble (tokens : List Token) : Str :=
  (tokens.map fun tok => tok.whitespaceBefore ++ tok.text).flatten

/-- A matcher table never stalls the cursor: every matched token has
nonempty text. -/
def NoStall (t : Tokenizer) : Prop :=
  ∀ input previousToken token,
    t.getNextToken input previousToken = some token → token.text ≠ []

/-- A matcher table is sound: every matched token's text is what the cursor
advance consumes, an actual prefix of the input at the match position. -/
def SoundMatch (t : Tokenizer) : Prop :=
  ∀ input previousToken token,
    t.getNextToken input previousToken = some token →
    ∃ rest, token.text ++ rest = input

/-- A degenerate tokenizer whose every matcher fails; used to witness the
engine-level theorems. -/
def Tnull : Tokenizer :=
  { REGEX_MAP := fun _ => NULL_REGEX
    quotedIdentRegex := NULL_REGEX
    placeholderPatterns := []
    preprocess := defaultPreprocess }

/-- A dialect configuration with `FROM` as its one reserved command. -/
def fromCfg : TokenizerOptions := { reservedCommands := [codes "FROM"] }

/-- Tokenizer with `FROM` configured as a reserved command (dot-guard tests). -/
def Tfrom : Tokenizer := mkTokenizer fromCfg

/-- Tokenizer with numbered placeholder prefix `:` enabled. -/
def Tnumbered : Tokenizer :=
  mkTokenizer { numberedPlaceholderTypes := some [58] }

/-- Tokenizer with named placeholder prefix `@` enabled. -/
def Tnamed : Tokenizer :=
  mkTokenizer { namedPlaceholderTypes := some [64] }

/-- Tokenizer with bare positional placeholders enabled. -/
def Tpositional : Tokenizer :=
  mkTokenizer { positionalPlaceholders := true }

/-- Tokenizer with quoted placeholder prefix `:` and double-quote
identifiers enabled. -/
def Tquoted : Tokenizer :=
  mkTokenizer { quotedPlaceholderTypes := some [58], identifierTypes := [34] }

/-- Tokenizer with numbered prefix `?` and positional placeholders both
enabled, exposing the configuration order of the styles. -/
def TnumberedAndPositional : Tokenizer :=
  mkTokenizer { numberedPlaceholderTypes := some [63], positionalPlaceholders := true }

/-- Configuration with every placeholder style enabled. -/
def allPlaceholdersCfg : TokenizerOptions :=
  { namedPlaceholderTypes := some [64]
    quotedPlaceholderTypes := some [58]
    numberedPlaceholderTypes := some [58]
    positionalPlaceholders := true
    identifierTypes := [34] }

/-- Tokenizer with double-quote identifiers enabled (quoted-identifier tests). -/
def Tdq : Tokenizer := mkTokenizer { identifierTypes := [34] }

/-- Tokenizer built from the all-default configuration. -/
def Tdefault : Tokenizer := mkTokenizer {}

/-- A configuration whose word lists contain no empty string: no empty
reserved word or phrase, operator, bracket or line-comment marker (an empty
entry would compile to a regex able to match zero characters). -/
def WellFormedCfg (cfg : TokenizerOptions) : Prop :=
  (∀ w ∈ cfg.reservedKeywords, w ≠ []) ∧
  (∀ w ∈ cfg.reservedDependentClauses, w ≠ []) ∧
  (∀ w ∈ cfg.reservedLogicalOperators.getD [codes "AND", codes "OR"], w ≠ []) ∧
  (∀ w ∈ cfg.reservedCommands, w ≠ []) ∧
  (∀ w ∈ cfg.reservedBinaryCommands, w ≠ []) ∧
  (∀ w ∈ cfg.reservedJoinConditions.getD [codes "ON", codes "USING"], w ≠ []) ∧
  (∀ w ∈ cfg.operators.getD [], w ≠ []) ∧
  (∀ w ∈ cfg.blockStart.getD [codes "("], w ≠ []) ∧
  (∀ w ∈ cfg.blockEnd.getD [codes ")"], w ≠ []) ∧
  (∀ w ∈ cfg.lineCommentTypes.getD [codes "--"], w ≠ [])

theorem getWhitespace_eq (t : Tokenizer) (input : Str) :
    t.getWhitespace input = input.takeWhile isJsSpace := by
  unfold Tokenizer.getWhitespace WHITESPACE_REGEX
  cases h : (input.takeWhile isJsSpace).isEmpty with
  | false => simp [h]
  | true => simp [h, List.isEmpty_iff.mp h]

theorem drop_length_takeWhile {α : Type} (p : α → Bool) (l : List α) :
    l.drop (l.takeWhile p).length = l.dropWhile p := by
  induction l with
  | nil => rfl
  | cons c rest ih =>
    by_cases h : p c <;>
      simp [List.takeWhile_cons, List.dropWhile_cons, h, ih]

theorem getNextToken_Tnull (input : Str) (previousToken : Option Token) :
    Tnull.getNextToken input previousToken = none := by
  unfold Tokenizer.getNextToken
  simp [Tnull, Tokenizer.matchToken, Tokenizer.matchRx, Tokenizer.matchQuotedIdentToken,
    Tokenizer.matchPlaceholderToken, matchPlaceholderLoop, Tokenizer.matchReservedWordToken,
    Tokenizer.matchReservedToken, NULL_REGEX]

theorem noStall_Tnull : NoStall Tnull := by
  intro input previousToken token h
  rw [getNextToken_Tnull] at h
  exact absurd h (by simp)

theorem soundMatch_Tnull : SoundMatch Tnull := by
  intro input previousToken token h
  rw [getNextToken_Tnull] at h
  exact absurd h (by simp)

theorem firstSome_eq_some {α β : Type} {f : α → Option β} {l : List α} {b : β}
    (h : firstSome f l = some b) : ∃ a ∈ l, f a = some b := by
  induction l with
  | nil => exact absurd h (by simp [firstSome])
  | cons a rest ih =>
    rw [firstSome] at h
    cases hf : f a with
    | some b2 =>
      rw [hf] at h
      simp at h
      exact ⟨a, by simp, by rw [hf, h]⟩
    | none =>
      rw [hf] at h
      simp at h
      obtain ⟨a2, ha2, hfa2⟩ := ih h
      exact ⟨a2, by simp [ha2], hfa2⟩

theorem getNextToken_eq_firstSome (t : Tokenizer) (input : Str)
    (previousToken : Option Token) :
    t.getNextToken input previousToken =
      firstSome (fun attempt => attempt input) (priorityCascade t previousToken) := by
  unfold Tokenizer.getNextToken priorityCascade
  simp only [firstSome]
  cases t.matchToken TokenType.LINE_COMMENT input <;>
    simp only [Option.some_orElse, Option.none_orElse]
  cases t.matchToken TokenType.BLOCK_COMMENT input <;>
    simp only [Option.some_orElse, Option.none_orElse]
  cases t.matchToken TokenType.STRING input <;>
    simp only [Option.some_orElse, Option.none_orElse]
  cases t.matchQuotedIdentToken input <;>
    simp only [Option.some_orElse, Option.none_orElse]
  cases t.matchToken TokenType.BLOCK_START input <;>
    simp only [Option.some_orElse, Option.none_orElse]
  cases t.matchToken TokenType.BLOCK_END input <;>
    simp only [Option.some_orElse, Option.none_orElse]
  cases t.matchPlaceholderToken input <;>
    simp only [Option.some_orElse, Option.none_orElse]
  cases t.matchToken TokenType.NUMBER input <;>
    simp only [Option.some_orElse, Option.none_orElse]
  cases t.matchReservedWordToken input previousToken <;>
    simp only [Option.some_orElse, Option.none_orElse]
  cases t.matchToken TokenType.IDENT input <;>
    simp only [Option.some_orElse, Option.none_orElse]
  cases t.matchToken TokenType.OPERATOR input <;>
    simp only [Option.some_orElse, Option.none_orElse]

theorem matchReservedWordToken_eq_firstSome (t : Tokenizer) (input : Str)
    (previousToken : Option Token)
    (hguard : previousToken.map Token.value ≠ some (codes ".")) :
    t.matchReservedWordToken input previousToken =
      firstSome (fun tokenType => t.matchReservedToken tokenType input)
        reservedCascadeOrder := by
  unfold Tokenizer.matchReservedWordToken reservedCascadeOrder
  rw [if_neg hguard]
  simp only [firstSome]
  cases t.matchReservedToken TokenType.RESERVED_CASE_START input <;>
    simp only [Option.some_orElse, Option.none_orElse]
  cases t.matchReservedToken TokenType.RESERVED_CASE_END input <;>
    simp only [Option.some_orElse, Option.none_orElse]
  cases t.matchReservedToken TokenType.RESERVED_COMMAND input <;>
    simp only [Option.some_orElse, Option.none_orElse]
  cases t.matchReservedToken TokenType.RESERVED_BINARY_COMMAND input <;>
    simp only [Option.some_orElse, Option.none_orElse]
  cases t.matchReservedToken TokenType.RESERVED_DEPENDENT_CLAUSE input <;>
    simp only [Option.some_orElse, Option.none_orElse]
  cases t.matchReservedToken TokenType.RESERVED_LOGICAL_OPERATOR input <;>
    simp only [Option.some_orElse, Option.none_orElse]
  cases t.matchReservedToken TokenType.RESERVED_KEYWORD input <;>
    simp only [Option.some_orElse, Option.none_orElse]
  cases t.matchReservedToken TokenType.RESERVED_JOIN_CONDITION input <;> rfl

theorem matchReservedToken_value (t : Tokenizer) (tokenType : TokenType)
    (input : Str) (token : Token)
    (h : t.matchReservedToken tokenType input = some token) :
    token.value = toCanonicalKeyword token.text ∧
    t.REGEX_MAP tokenType input = some token.text := by
  unfold Tokenizer.matchReservedToken Tokenizer.matchRx at h
  cases hm : t.REGEX_MAP tokenType input with
  | none => rw [hm] at h; exact absurd h (by simp)
  | some m =>
    rw [hm] at h
    simp only [Option.some.injEq] at h
    rw [← h]
    exact ⟨rfl, rfl⟩

theorem jsToUpperCode_idem (n : Nat) :
    jsToUpperCode (jsToUpperCode n) = jsToUpperCode n := by
  by_cases h : 97 ≤ n ∧ n ≤ 122
  · simp only [jsToUpperCode, if_pos h]
    rw [if_neg (by omega)]
  · simp only [jsToUpperCode, if_neg h]

theorem isJsSpace_jsToUpper (n : Nat) :
    isJsSpace (jsToUpperCode n) = isJsSpace n := by
  unfold jsToUpperCode isJsSpace
  split
  · next h => simp only [decide_eq_decide]; omega
  · rfl

theorem eqWsAux_idem (b : Bool) (s : Str) :
    eqWsAux b (eqWsAux b s) = eqWsAux b s := by
  induction s generalizing b with
  | nil => rfl
  | cons c rest ih =>
    by_cases hc : isJsSpace c
    · cases b
      · have h32 : isJsSpace 32 = true := rfl
        simp [eqWsAux, hc, h32, ih]
      · simp [eqWsAux, hc, ih]
    · simp [eqWsAux, hc, ih]

theorem map_jsToUpper_eqWsAux (b : Bool) (s : Str) :
    (eqWsAux b s).map jsToUpperCode = eqWsAux b (s.map jsToUpperCode) := by
  induction s generalizing b with
  | nil => rfl
  | cons c rest ih =>
    by_cases hc : isJsSpace c
    · have hs : isJsSpace (jsToUpperCode c) = true := by
        rw [isJsSpace_jsToUpper]; exact hc
      have h32 : jsToUpperCode 32 = 32 := rfl
      cases b <;> simp [eqWsAux, hc, hs, h32, ih]
    · have hs : isJsSpace (jsToUpperCode c) = false := by
        rw [isJsSpace_jsToUpper]; exact eq_false_of_ne_true hc
      simp [eqWsAux, hc, hs, ih]

theorem toCanonicalKeyword_idem (s : Str) :
    toCanonicalKeyword (toCanonicalKeyword s) = toCanonicalKeyword s := by
  unfold toCanonicalKeyword equalizeWhitespace
  rw [map_jsToUpper_eqWsAux]
  have hmm : (s.map jsToUpperCode).map jsToUpperCode = s.map jsToUpperCode := by
    rw [List.map_map]
    exact List.map_congr_left fun n _ => jsToUpperCode_idem n
  rw [hmm, eqWsAux_idem]

theorem reassemble_append_single (tokens : List Token) (token : Token) :
    reassemble (tokens ++ [token]) =
      reassemble tokens ++ (token.whitespaceBefore ++ token.text) := by
  simp [reassemble]

theorem tokenizeLoop_characterize (t : Tokenizer) (hns : NoStall t) :
    ∀ (fuel : Nat) (input : Str) (tokens : List Token) (lastToken : Option Token),
      input.length < fuel →
      (∃ out, t.tokenizeLoop fuel input tokens lastToken = .ok out) ∨
      (∃ rest prev, rest ≠ [] ∧ t.getNextToken rest prev = none ∧
        t.tokenizeLoop fuel input tokens lastToken = .parseError (rest.take 100)) := by
  intro fuel
  induction fuel with
  | zero => intro input _ _ h; omega
  | succ n ih =>
    intro input tokens lastToken hlen
    by_cases hinput : input = []
    · exact Or.inl ⟨tokens, by simp [Tokenizer.tokenizeLoop, hinput]⟩
    · have hpos : 1 ≤ input.length := by
        cases input with
        | nil => exact absurd rfl hinput
        | cons c rest => simp
      by_cases h2 : input.drop (t.getWhitespace input).length = []
      · left
        refine ⟨tokens, ?_⟩
        simp only [Tokenizer.tokenizeLoop, if_neg hinput, if_pos h2]
        cases n with
        | zero => omega
        | succ m => simp [Tokenizer.tokenizeLoop, h2]
      · cases hg : t.getNextToken (input.drop (t.getWhitespace input).length) lastToken with
        | none =>
          right
          exact ⟨input.drop (t.getWhitespace input).length, lastToken, h2, hg,
            by simp only [Tokenizer.tokenizeLoop, if_neg hinput, if_neg h2, hg]⟩
        | some token =>
          have htext : token.text ≠ [] := hns _ _ _ hg
          have htpos : 1 ≤ token.text.length := by
            cases hx : token.text with
            | nil => exact absurd hx htext
            | cons c rest => simp
          have h2pos : 1 ≤ (input.drop (t.getWhitespace input).length).length := by
            cases hx : input.drop (t.getWhitespace input).length with
            | nil => exact absurd hx h2
            | cons c rest => simp
          have hlen3 :
              ((input.drop (t.getWhitespace input).length).drop token.text.length).length < n := by
            simp only [List.length_drop] at h2pos ⊢
            omega
          rcases ih ((input.drop (t.getWhitespace input).length).drop token.text.length)
              (tokens ++ [{ token with whitespaceBefore := t.getWhitespace input }]) token
              hlen3 with ⟨out, ho⟩ | ⟨rest, prev, hne, hgn, he⟩
          · exact Or.inl ⟨out,
              by simp only [Tokenizer.tokenizeLoop, if_neg hinput, if_neg h2, hg]; exact ho⟩
          · exact Or.inr ⟨rest, prev, hne, hgn,
              by simp only [Tokenizer.tokenizeLoop, if_neg hinput, if_neg h2, hg]; exact he⟩

theorem tokenizeLoop_reassemble (t : Tokenizer) (hsound : SoundMatch t) :
    ∀ (fuel : Nat) (input : Str) (tokens out : List Token) (lastToken : Option Token),
      t.tokenizeLoop fuel input tokens lastToken = .ok out →
      ∃ trailing, (∀ c ∈ trailing, isJsSpace c = true) ∧
        reassemble out ++ trailing = reassemble tokens ++ input := by
  intro fuel
  induction fuel with
  | zero =>
    intro input tokens out lastToken h
    exact absurd h (by simp [Tokenizer.tokenizeLoop])
  | succ n ih =>
    intro input tokens out lastToken h
    by_cases hinput : input = []
    · subst hinput
      simp only [Tokenizer.tokenizeLoop] at h
      simp at h
      exact ⟨[], by simp, by simp [h]⟩
    · have hsplit : t.getWhitespace input ++ input.drop (t.getWhitespace input).length
          = input := by
        rw [getWhitespace_eq, drop_length_takeWhile]
        exact List.takeWhile_append_dropWhile isJsSpace input
      have hwsmem : ∀ c ∈ t.getWhitespace input, isJsSpace c = true := by
        intro c hc
        rw [getWhitespace_eq] at hc
        exact List.mem_takeWhile_imp hc
      by_cases h2 : input.drop (t.getWhitespace input).length = []
      · simp only [Tokenizer.tokenizeLoop, if_neg hinput, if_pos h2] at h
        rcases ih _ _ _ _ h with ⟨tr, htr, he⟩
        refine ⟨tr ++ t.getWhitespace input, ?_, ?_⟩
        · intro c hc
          rcases List.mem_append.mp hc with hc1 | hc2
          · exact htr c hc1
          · exact hwsmem c hc2
        · have hws_eq : t.getWhitespace input = input := by
            rw [h2, List.append_nil] at hsplit
            exact hsplit
          rw [← List.append_assoc, he, h2, List.append_nil, hws_eq]
      · cases hg : t.getNextToken (input.drop (t.getWhitespace input).length) lastToken with
        | none =>
          rw [Tokenizer.tokenizeLoop.eq_def] at h
          simp only [if_neg hinput, if_neg h2, hg] at h
          exact absurd h (by simp)
        | some token =>
          simp only [Tokenizer.tokenizeLoop, if_neg hinput, if_neg h2, hg] at h
          obtain ⟨rest, hrest⟩ := hsound _ _ _ hg
          have hdrop : (input.drop (t.getWhitespace input).length).drop token.text.length
              = rest := by
            rw [← hrest, List.drop_left]
          rcases ih _ _ _ _ h with ⟨tr, htr, he⟩
          refine ⟨tr, htr, ?_⟩
          rw [he, hdrop, reassemble_append_single]
          have : token.whitespaceBefore = token.whitespaceBefore := rfl
          calc reassemble tokens ++
                (({ token with whitespaceBefore := t.getWhitespace input } : Token).whitespaceBefore ++
                  ({ token with whitespaceBefore := t.getWhitespace input } : Token).text) ++ rest
              = reassemble tokens ++ (t.getWhitespace input ++ (token.text ++ rest)) := by
                simp [List.append_assoc]
            _ = reassemble tokens ++ input := by
                rw [hrest, hsplit]

theorem matchLiteral_consumed (w : Str) :
    ∀ (input m : Str), matchLiteral w input = some m →
      m = w ∧ ∃ rest, m ++ rest = input := by
  induction w with
  | nil =>
    intro input m h
    rw [matchLiteral, Option.some.injEq] at h
    exact ⟨h.symm, input, by simp [← h]⟩
  | cons p ps ih =>
    intro input m h
    cases input with
    | nil => simp [matchLiteral] at h
    | cons c rest =>
      simp only [matchLiteral] at h
      split at h
      · rw [Option.map_eq_some'] at h
        obtain ⟨m2, hm2, hcm⟩ := h
        obtain ⟨hm2w, r, hr⟩ := ih rest m2 hm2
        rename_i hc
        have hcp : c = p := by simpa using hc
        subst hcm hm2w hcp
        exact ⟨rfl, r, by simp [hr]⟩
      · simp at h

theorem matchLiteralCI_consumed (w : Str) :
    ∀ (input m : Str), matchLiteralCI w input = some m →
      m.length = w.length ∧ ∃ rest, m ++ rest = input := by
  induction w with
  | nil =>
    intro input m h
    rw [matchLiteralCI, Option.some.injEq] at h
    exact ⟨by rw [← h], input, by simp [← h]⟩
  | cons p ps ih =>
    intro input m h
    cases input with
    | nil => simp [matchLiteralCI] at h
    | cons c rest =>
      simp only [matchLiteralCI] at h
      split at h
      · rw [Option.map_eq_some'] at h
        obtain ⟨m2, hm2, hcm⟩ := h
        obtain ⟨hm2w, r, hr⟩ := ih rest m2 hm2
        subst hcm
        exact ⟨by simp [hm2w], r, by simp [hr]⟩
      · simp at h

theorem matchPhraseCI_consumed (w : Str) :
    ∀ (input m : Str), matchPhraseCI w input = some m →
      (w ≠ [] → m ≠ []) ∧ ∃ rest, m ++ rest = input := by
  induction w with
  | nil =>
    intro input m h
    rw [matchPhraseCI, Option.some.injEq] at h
    exact ⟨fun hw => absurd rfl hw, input, by simp [← h]⟩
  | cons p ps ih =>
    intro input m h
    cases input with
    | nil =>
      simp only [matchPhraseCI] at h
      split at h
      · simp at h
      · simp at h
    | cons c tl =>
      simp only [matchPhraseCI] at h
      split at h
      · split at h
        · simp at h
        · rename_i hrun
          rw [Option.map_eq_some'] at h
          obtain ⟨m2, hm2, hcm⟩ := h
          obtain ⟨-, r, hr⟩ := ih _ m2 hm2
          subst hcm
          refine ⟨fun _ hm => ?_, r, ?_⟩
          · rw [List.append_eq_nil] at hm
            exact hrun (by simp [hm.1])
          · rw [List.append_assoc, hr, drop_length_takeWhile]
            exact List.takeWhile_append_dropWhile isJsSpace (c :: tl)
      · split at h
        · rw [Option.map_eq_some'] at h
          obtain ⟨m2, hm2, hcm⟩ := h
          obtain ⟨-, r, hr⟩ := ih tl m2 hm2
          subst hcm
          exact ⟨fun _ => by simp, r, by simp [hr]⟩
        · simp at h

theorem quoteScan_consumed (q : Nat) :
    ∀ (fuel : Nat) (input m : Str), input.length ≤ fuel →
      quoteScan q input = some m →
      m ≠ [] ∧ ∃ rest, m ++ rest = input := by
  intro fuel
  induction fuel with
  | zero =>
    intro input m hle h
    have : input = [] := List.length_eq_zero.mp (Nat.le_zero.mp hle)
    subst this
    simp [quoteScan] at h
  | succ n ih =>
    intro input m hle h
    cases input with
    | nil => simp [quoteScan] at h
    | cons c rest =>
      cases rest with
      | nil =>
        rw [quoteScan.eq_2] at h
        split at h
        · rw [Option.some.injEq] at h
          exact ⟨by simp [← h], [], by simp [← h]⟩
        · split at h
          · simp at h
          · rw [Option.map_eq_some'] at h
            obtain ⟨m2, hm2, hcm⟩ := h
            exact absurd hm2 (by simp [quoteScan])
      | cons d rest2 =>
        rw [quoteScan.eq_3] at h
        split at h
        · rw [Option.some.injEq] at h
          exact ⟨by simp [← h], d :: rest2, by simp [← h]⟩
        · split at h
          · rw [Option.map_eq_some'] at h
            obtain ⟨m2, hm2, hdm⟩ := h
            obtain ⟨-, r, hr⟩ := ih rest2 m2 (by simp at hle ⊢; omega) hm2
            subst hdm
            exact ⟨by simp, r, by simp [hr]⟩
          · rw [Option.map_eq_some'] at h
            obtain ⟨m2, hm2, hcm⟩ := h
            obtain ⟨-, r, hr⟩ := ih (d :: rest2) m2 (by simp at hle ⊢; omega) hm2
            subst hcm
            exact ⟨by simp, r, by simp [hr]⟩

theorem createQuoteRegex_consumed (quoteTypes : List Nat) (input m : Str)
    (h : createQuoteRegex quoteTypes input = some m) :
    m ≠ [] ∧ ∃ rest, m ++ rest = input := by
  cases input with
  | nil => simp [createQuoteRegex] at h
  | cons c rest =>
    simp only [createQuoteRegex] at h
    split at h
    · rw [Option.map_eq_some'] at h
      obtain ⟨m2, hm2, hcm⟩ := h
      obtain ⟨-, r, hr⟩ := quoteScan_consumed c rest.length rest m2 (le_refl _) hm2
      subst hcm
      exact ⟨by simp, r, by simp [hr]⟩
    · simp at h

theorem createIdentRegex_consumed (specialIdentChars : List Nat) (input m : Str)
    (h : createIdentRegex specialIdentChars input = some m) :
    m ≠ [] ∧ ∃ rest, m ++ rest = input := by
  simp only [createIdentRegex] at h
  split at h
  · simp at h
  · rename_i hne
    rw [Option.some.injEq] at h
    subst h
    refine ⟨by simpa [List.isEmpty_iff] using hne, ?_⟩
    exact ⟨input.dropWhile _, List.takeWhile_append_dropWhile _ input⟩

theorem createReservedWordRegex_consumed (words : List Str) (input m : Str)
    (h : createReservedWordRegex words input = some m) :
    ((∀ w ∈ words, w ≠ []) → m ≠ []) ∧ ∃ rest, m ++ rest = input := by
  unfold createReservedWordRegex at h
  obtain ⟨w, hw, hmatch⟩ := firstSome_eq_some h
  cases hp : matchPhraseCI w input with
  | none => simp [hp] at hmatch
  | some mm =>
    simp only [hp] at hmatch
    split at hmatch
    · rw [Option.some.injEq] at hmatch
      subst hmatch
      obtain ⟨hne, r, hr⟩ := matchPhraseCI_consumed w input mm hp
      exact ⟨fun hall => hne (hall w hw), r, hr⟩
    · simp at hmatch

theorem createOperatorRegex_consumed (singleChars : List Nat) (multiOps : List Str)
    (input m : Str) (h : createOperatorRegex singleChars multiOps input = some m) :
    ((∀ w ∈ multiOps, w ≠ []) → m ≠ []) ∧ ∃ rest, m ++ rest = input := by
  unfold createOperatorRegex at h
  cases hf : firstSome (fun w => matchLiteral w input) multiOps with
  | some mm =>
    simp only [hf, Option.some.injEq] at h
    subst h
    obtain ⟨w, hw, hml⟩ := firstSome_eq_some hf
    obtain ⟨hmw, r, hr⟩ := matchLiteral_consumed w input mm hml
    exact ⟨fun hall => hmw ▸ hall w hw, r, hr⟩
  | none =>
    simp only [hf] at h
    cases input with
    | nil => simp at h
    | cons c rest =>
      split at h
      · rename_i e2 rest2 heq
        rw [List.cons.injEq] at heq
        obtain ⟨rfl, rfl⟩ := heq
        split at h
        · rw [Option.some.injEq] at h
          exact ⟨by simp [← h], rest, by simp [← h]⟩
        · simp at h
      · rename_i heq
        simp at heq

theorem createParenRegex_consumed (parens : List Str) (input m : Str)
    (h : createParenRegex parens input = some m) :
    ((∀ w ∈ parens, w ≠ []) → m ≠ []) ∧ ∃ rest, m ++ rest = input := by
  unfold createParenRegex at h
  obtain ⟨w, hw, hml⟩ := firstSome_eq_some h
  obtain ⟨hmw, r, hr⟩ := matchLiteral_consumed w input m hml
  exact ⟨fun hall => hmw ▸ hall w hw, r, hr⟩

theorem createLineCommentRegex_consumed (markers : List Str) (input m : Str)
    (h : createLineCommentRegex markers input = some m) :
    ((∀ w ∈ markers, w ≠ []) → m ≠ []) ∧ ∃ rest, m ++ rest = input := by
  unfold createLineCommentRegex at h
  cases hf : firstSome (fun w => matchLiteral w input) markers with
  | none => simp [hf] at h
  | some mk =>
    simp only [hf, Option.some.injEq] at h
    obtain ⟨w, hw, hml⟩ := firstSome_eq_some hf
    obtain ⟨hmkw, r, hr⟩ := matchLiteral_consumed w input mk hml
    constructor
    · intro hall hm
      rw [← h, List.append_eq_nil] at hm
      exact hall w hw (hmkw ▸ hm.1)
    · refine ⟨(input.drop mk.length).dropWhile
          (fun c => !(c == 10 || c == 13 || c == 8232 || c == 8233)), ?_⟩
      rw [← h, List.append_assoc, List.takeWhile_append_dropWhile]
      have hdrop : input.drop mk.length = r := by
        rw [← hr, List.drop_left]
      rw [hdrop]
      exact hr

theorem RESERVED_CASE_START_REGEX_consumed (input m : Str)
    (h : RESERVED_CASE_START_REGEX input = some m) :
    m ≠ [] ∧ ∃ rest, m ++ rest = input := by
  unfold RESERVED_CASE_START_REGEX at h
  cases hl : matchLiteralCI (codes "CASE") input with
  | none => simp [hl] at h
  | some mm =>
    simp only [hl] at h
    split at h
    · rw [Option.some.injEq] at h
      subst h
      obtain ⟨hlen, r, hr⟩ := matchLiteralCI_consumed _ _ _ hl
      refine ⟨?_, r, hr⟩
      intro hm
      rw [hm] at hlen
      simp [codes] at hlen
    · simp at h

theorem RESERVED_CASE_END_REGEX_consumed (input m : Str)
    (h : RESERVED_CASE_END_REGEX input = some m) :
    m ≠ [] ∧ ∃ rest, m ++ rest = input := by
  unfold RESERVED_CASE_END_REGEX at h
  cases hl : matchLiteralCI (codes "END") input with
  | none => simp [hl] at h
  | some mm =>
    simp only [hl] at h
    split at h
    · rw [Option.some.injEq] at h
      subst h
      obtain ⟨hlen, r, hr⟩ := matchLiteralCI_consumed _ _ _ hl
      refine ⟨?_, r, hr⟩
      intro hm
      rw [hm] at hlen
      simp [codes] at hlen
    · simp at h

theorem blockCommentScan_consumed (l : Str) :
    ∃ rest, blockCommentScan l ++ rest = l := by
  induction l using blockCommentScan.induct with
  | case1 => exact ⟨[], rfl⟩
  | case2 tl => exact ⟨tl, rfl⟩
  | case3 c rest hne ih =>
    obtain ⟨r, hr⟩ := ih
    refine ⟨r, ?_⟩
    have hscan : blockCommentScan (c :: rest) = c :: blockCommentScan rest := by
      rw [blockCommentScan.eq_def]
      cases c with
      | zero => rfl
      | succ c1 =>
        cases rest with
        | nil => split <;> simp_all
        | cons c2 tl2 => split <;> simp_all
    rw [hscan]
    simp [hr]

theorem BLOCK_COMMENT_REGEX_consumed (input m : Str)
    (h : BLOCK_COMMENT_REGEX input = some m) :
    m ≠ [] ∧ ∃ rest, m ++ rest = input := by
  unfold BLOCK_COMMENT_REGEX at h
  split at h
  · rename_i rest
    rw [Option.some.injEq] at h
    subst h
    obtain ⟨r, hr⟩ := blockCommentScan_consumed rest
    exact ⟨by simp, r, by simp [hr]⟩
  · simp at h

theorem consumed_drop (m r l : Str) (h : m ++ r = l) : l.drop m.length = r := by
  rw [← h, List.drop_left]

theorem numberSignSplit_consumed (rest : Str) :
    (numberSignSplit rest).1 ++ (numberSignSplit rest).2 = rest := by
  unfold numberSignSplit
  cases rest with
  | nil => rfl
  | cons c r =>
    by_cases hc : (c == 43 || c == 45) = true
    · simp [hc]
    · simp [hc]

theorem numberExpFrac_consumed (rest3 : Str) :
    ∃ r, numberExpFrac rest3 ++ r = rest3 := by
  unfold numberExpFrac
  split
  · rename_i x tl
    split
    · exact ⟨46 :: tl, by simp⟩
    · refine ⟨tl.drop (tl.takeWhile isDigitCode).length, ?_⟩
      simp only [List.cons_append, List.cons.injEq, true_and]
      rw [drop_length_takeWhile]
      exact List.takeWhile_append_dropWhile isDigitCode tl
  · exact ⟨rest3, by simp⟩

theorem numberExponentOpt_consumed (s : Str) :
    ∃ rest, numberExponentOpt s ++ rest = s := by
  cases s with
  | nil => exact ⟨[], rfl⟩
  | cons e tl =>
    simp only [numberExponentOpt]
    split
    · split
      · exact ⟨e :: tl, by simp⟩
      · obtain ⟨rf, hrf⟩ := numberExpFrac_consumed
          ((numberSignSplit tl).2.drop
            ((numberSignSplit tl).2.takeWhile isDigitCode).length)
        refine ⟨rf, ?_⟩
        simp only [List.cons_append, List.cons.injEq, true_and, List.append_assoc]
        rw [hrf, drop_length_takeWhile, List.takeWhile_append_dropWhile]
        exact numberSignSplit_consumed tl
    · exact ⟨e :: tl, rfl⟩

theorem numberFrac_consumed (s1 : Str) : ∃ r, numberFrac s1 ++ r = s1 := by
  unfold numberFrac
  split
  · rename_i x tl
    refine ⟨tl.drop (tl.takeWhile isDigitCode).length, ?_⟩
    simp only [List.cons_append, List.cons.injEq, true_and]
    rw [drop_length_takeWhile]
    exact List.takeWhile_append_dropWhile isDigitCode tl
  · exact ⟨s1, by simp⟩

theorem numberDecimalTail_consumed (s m : Str) (h : numberDecimalTail s = some m) :
    m ≠ [] ∧ ∃ rest, m ++ rest = s := by
  unfold numberDecimalTail at h
  split at h
  · simp at h
  · rename_i hds
    rw [Option.some.injEq] at h
    subst h
    constructor
    · intro hm
      rcases List.append_eq_nil.mp hm with ⟨h1, -⟩
      rcases List.append_eq_nil.mp h1 with ⟨h2, -⟩
      exact hds (by simp [h2])
    · obtain ⟨rf, hrf⟩ := numberFrac_consumed (s.drop (s.takeWhile isDigitCode).length)
      obtain ⟨re, hre⟩ := numberExponentOpt_consumed
        ((s.drop (s.takeWhile isDigitCode).length).drop
          (numberFrac (s.drop (s.takeWhile isDigitCode).length)).length)
      refine ⟨re, ?_⟩
      rw [List.append_assoc, List.append_assoc, hre, consumed_drop _ _ _ hrf, hrf,
        drop_length_takeWhile]
      exact List.takeWhile_append_dropWhile isDigitCode s

theorem NUMBER_REGEX_consumed (input m : Str) (h : NUMBER_REGEX input = some m) :
    m ≠ [] ∧ ∃ rest, m ++ rest = input := by
  unfold NUMBER_REGEX at h
  split at h
  · rename_i x tl
    split at h
    · exact numberDecimalTail_consumed _ m h
    · rw [Option.some.injEq] at h
      subst h
      refine ⟨by simp, tl.drop (tl.takeWhile isHexDigitCode).length, ?_⟩
      simp only [List.cons_append, List.cons.injEq, true_and]
      rw [drop_length_takeWhile]
      exact List.takeWhile_append_dropWhile isHexDigitCode tl
  · rename_i x tl
    split at h
    · exact numberDecimalTail_consumed _ m h
    · rw [Option.some.injEq] at h
      subst h
      refine ⟨by simp, tl.drop (tl.takeWhile isBinDigitCode).length, ?_⟩
      simp only [List.cons_append, List.cons.injEq, true_and]
      rw [drop_length_takeWhile]
      exact List.takeWhile_append_dropWhile isBinDigitCode tl
  · rename_i x tl
    cases hd : numberDecimalTail (tl.drop (tl.takeWhile isJsSpace).length) with
    | none => simp [hd] at h
    | some t =>
      simp only [hd, Option.some.injEq] at h
      subst h
      obtain ⟨-, rt, hrt⟩ := numberDecimalTail_consumed _ t hd
      refine ⟨by simp, rt, ?_⟩
      simp only [List.cons_append, List.cons.injEq, true_and, List.append_assoc]
      rw [hrt, drop_length_takeWhile]
      exact List.takeWhile_append_dropWhile isJsSpace tl
  · exact numberDecimalTail_consumed _ m h

theorem takeWhileGuard_consumed (p : Nat → Bool) (s m : Str)
    (h : (if (s.takeWhile p).isEmpty = true then none
          else some (s.takeWhile p)) = some m) :
    m ≠ [] ∧ ∃ rest, m ++ rest = s := by
  split at h
  · simp at h
  · rename_i hne
    rw [Option.some.injEq] at h
    subst h
    exact ⟨by simpa [List.isEmpty_iff] using hne, s.dropWhile p,
      List.takeWhile_append_dropWhile p s⟩

theorem matchRx_inv (t : Tokenizer) (input : Str) (ty : TokenType)
    (regex : Matcher) (transform : Str → Str) (token : Token)
    (h : t.matchRx input ty regex transform = some token) :
    regex input = some token.text := by
  unfold Tokenizer.matchRx at h
  cases hm : regex input with
  | none => simp [hm] at h
  | some m =>
    simp only [hm, Option.some.injEq] at h
    rw [← h]

theorem matchReservedWordToken_inv (t : Tokenizer) (input : Str)
    (previousToken : Option Token) (token : Token)
    (h : t.matchReservedWordToken input previousToken = some token) :
    token.value = toCanonicalKeyword token.text ∧
    ∃ tokenType ∈ reservedCascadeOrder,
      t.REGEX_MAP tokenType input = some token.text := by
  unfold Tokenizer.matchReservedWordToken at h
  split at h
  · exact absurd h (by simp)
  · have hfs : firstSome (fun tokenType => t.matchReservedToken tokenType input)
        reservedCascadeOrder = some token := by
      rw [← h]
      unfold reservedCascadeOrder
      simp only [firstSome]
      cases t.matchReservedToken TokenType.RESERVED_CASE_START input <;>
        simp only [Option.some_orElse, Option.none_orElse]
      cases t.matchReservedToken TokenType.RESERVED_CASE_END input <;>
        simp only [Option.some_orElse, Option.none_orElse]
      cases t.matchReservedToken TokenType.RESERVED_COMMAND input <;>
        simp only [Option.some_orElse, Option.none_orElse]
      cases t.matchReservedToken TokenType.RESERVED_BINARY_COMMAND input <;>
        simp only [Option.some_orElse, Option.none_orElse]
      cases t.matchReservedToken TokenType.RESERVED_DEPENDENT_CLAUSE input <;>
        simp only [Option.some_orElse, Option.none_orElse]
      cases t.matchReservedToken TokenType.RESERVED_LOGICAL_OPERATOR input <;>
        simp only [Option.some_orElse, Option.none_orElse]
      cases t.matchReservedToken TokenType.RESERVED_KEYWORD input <;>
        simp only [Option.some_orElse, Option.none_orElse]
      cases t.matchReservedToken TokenType.RESERVED_JOIN_CONDITION input <;> rfl
    obtain ⟨tokenType, hmem, hmatch⟩ := firstSome_eq_some hfs
    obtain ⟨hval, hreg⟩ := matchReservedToken_value t tokenType input token hmatch
    exact ⟨hval, tokenType, hmem, hreg⟩

theorem matchPlaceholderLoop_inv (t : Tokenizer) (input : Str) :
    ∀ (ps : List PlaceholderPattern) (token : Token),
      matchPlaceholderLoop t input ps = some token →
      ∃ p ∈ ps, p.regex input = some token.text := by
  intro ps
  induction ps with
  | nil => intro token h; simp [matchPlaceholderLoop] at h
  | cons p rest ih =>
    intro token h
    simp only [matchPlaceholderLoop] at h
    cases hm : t.matchRx input TokenType.PLACEHOLDER p.regex (fun s => s) with
    | none =>
      simp only [hm] at h
      obtain ⟨p2, hp2, hr⟩ := ih token h
      exact ⟨p2, by simp [hp2], hr⟩
    | some tok0 =>
      simp only [hm, Option.some.injEq] at h
      have hreg := matchRx_inv t input TokenType.PLACEHOLDER p.regex (fun s => s) tok0 hm
      refine ⟨p, by simp, ?_⟩
      rw [← h]
      exact hreg

theorem mkTokenizer_placeholder_consumed (cfg : TokenizerOptions)
    (p : PlaceholderPattern) (hp : p ∈ (mkTokenizer cfg).placeholderPatterns)
    (input m : Str) (h : p.regex input = some m) :
    m ≠ [] ∧ ∃ rest, m ++ rest = input := by
  simp only [mkTokenizer, excludePatternsWithoutRegexes, List.mem_filterMap] at hp
  obtain ⟨a, ha, hmatch⟩ := hp
  simp only [List.mem_cons, List.not_mem_nil, or_false] at ha
  have main : ∀ (types : List Nat) (pat : Str → Option Str) (k : Str → Str),
      (∀ s m2, pat s = some m2 → ∃ rest, m2 ++ rest = s) →
      a = (createPlaceholderRegex types pat, k) →
      m ≠ [] ∧ ∃ rest, m ++ rest = input := by
    intro types pat k hpat ha2
    subst ha2
    cases hr : createPlaceholderRegex types pat with
    | none => simp [hr] at hmatch
    | some r =>
      simp only [hr, Option.some.injEq] at hmatch
      unfold createPlaceholderRegex at hr
      split at hr
      · simp at hr
      · rw [Option.some.injEq] at hr
        rw [← hmatch] at h
        simp only at h
        rw [← hr] at h
        cases input with
        | nil => simp at h
        | cons c rest =>
          simp only at h
          split at h
          · rw [Option.map_eq_some'] at h
            obtain ⟨m2, hm2, hcm⟩ := h
            obtain ⟨r2, hr2⟩ := hpat rest m2 hm2
            subst hcm
            exact ⟨by simp, r2, by simp [hr2]⟩
          · simp at h
  rcases ha with ha | ha | ha | ha
  · exact main _ _ _
      (fun s m2 h2 => (takeWhileGuard_consumed isNamedPlaceholderCode s m2 h2).2) ha
  · exact main _ _ _
      (fun s m2 h2 => (createQuoteRegex_consumed cfg.identifierTypes s m2 h2).2) ha
  · exact main _ _ _
      (fun s m2 h2 => (takeWhileGuard_consumed isDigitCode s m2 h2).2) ha
  · rw [ha] at hmatch
    cases hpos : cfg.positionalPlaceholders with
    | false => simp [hpos] at hmatch
    | true =>
      simp only [hpos, if_true] at hmatch
      rw [Option.some.injEq] at hmatch
      rw [← hmatch] at h
      simp only at h
      cases input with
      | nil => simp at h
      | cons c rest =>
        cases hc : c == 63 with
        | false =>
          have : c ≠ 63 := by simpa using hc
          split at h
          · rw [Option.some.injEq] at h
            subst h
            exact ⟨by simp, rest, by simp_all⟩
          · simp at h
        | true =>
          have hc63 : c = 63 := by simpa using hc
          subst hc63
          rw [Option.some.injEq] at h
          subst h
          exact ⟨by simp, rest, rfl⟩

theorem getNextToken_mkTokenizer_consumed (cfg : TokenizerOptions)
    (hwf : WellFormedCfg cfg) (input : Str) (previousToken : Option Token)
    (token : Token)
    (h : (mkTokenizer cfg).getNextToken input previousToken = some token) :
    token.text ≠ [] ∧ ∃ rest, token.text ++ rest = input := by
  obtain ⟨hkw, hdep, hlog, hcmd, hbin, hjoin, hops, hbs, hbe, hlc⟩ := hwf
  have h2 : firstSome (fun attempt => attempt input)
      (priorityCascade (mkTokenizer cfg) previousToken) = some token := by
    rw [← getNextToken_eq_firstSome]
    exact h
  obtain ⟨attempt, hmem, hatt⟩ := firstSome_eq_some h2
  simp only [priorityCascade, List.mem_cons, List.not_mem_nil, or_false] at hmem
  rcases hmem with hq | hq | hq | hq | hq | hq | hq | hq | hq | hq | hq <;> subst hq <;>
    simp only at hatt
  · have hr := matchRx_inv _ _ _ _ _ _ hatt
    have heq : (mkTokenizer cfg).REGEX_MAP TokenType.LINE_COMMENT =
        createLineCommentRegex (cfg.lineCommentTypes.getD [codes "--"]) := rfl
    rw [heq] at hr
    obtain ⟨hne, hrest⟩ := createLineCommentRegex_consumed _ _ _ hr
    exact ⟨hne hlc, hrest⟩
  · have hr := matchRx_inv _ _ _ _ _ _ hatt
    have heq : (mkTokenizer cfg).REGEX_MAP TokenType.BLOCK_COMMENT =
        BLOCK_COMMENT_REGEX := rfl
    rw [heq] at hr
    exact BLOCK_COMMENT_REGEX_consumed _ _ hr
  · have hr := matchRx_inv _ _ _ _ _ _ hatt
    have heq : (mkTokenizer cfg).REGEX_MAP TokenType.STRING =
        createQuoteRegex cfg.stringTypes := rfl
    rw [heq] at hr
    exact createQuoteRegex_consumed _ _ _ hr
  · have hr := matchRx_inv _ _ _ _ _ _ hatt
    have heq : (mkTokenizer cfg).quotedIdentRegex =
        createQuoteRegex cfg.identifierTypes := rfl
    rw [heq] at hr
    exact createQuoteRegex_consumed _ _ _ hr
  · have hr := matchRx_inv _ _ _ _ _ _ hatt
    have heq : (mkTokenizer cfg).REGEX_MAP TokenType.BLOCK_START =
        createParenRegex (cfg.blockStart.getD [codes "("]) := rfl
    rw [heq] at hr
    obtain ⟨hne, hrest⟩ := createParenRegex_consumed _ _ _ hr
    exact ⟨hne hbs, hrest⟩
  · have hr := matchRx_inv _ _ _ _ _ _ hatt
    have heq : (mkTokenizer cfg).REGEX_MAP TokenType.BLOCK_END =
        createParenRegex (cfg.blockEnd.getD [codes ")"]) := rfl
    rw [heq] at hr
    obtain ⟨hne, hrest⟩ := createParenRegex_consumed _ _ _ hr
    exact ⟨hne hbe, hrest⟩
  · obtain ⟨p, hp, hr⟩ := matchPlaceholderLoop_inv _ input _ token hatt
    exact mkTokenizer_placeholder_consumed cfg p hp input token.text hr
  · have hr := matchRx_inv _ _ _ _ _ _ hatt
    have heq : (mkTokenizer cfg).REGEX_MAP TokenType.NUMBER = NUMBER_REGEX := rfl
    rw [heq] at hr
    exact NUMBER_REGEX_consumed _ _ hr
  · obtain ⟨-, tokenType, hty, hr⟩ := matchReservedWordToken_inv _ _ _ _ hatt
    simp only [reservedCascadeOrder, List.mem_cons, List.not_mem_nil, or_false] at hty
    rcases hty with rfl | rfl | rfl | rfl | rfl | rfl | rfl | rfl
    · have heq : (mkTokenizer cfg).REGEX_MAP TokenType.RESERVED_CASE_START =
          RESERVED_CASE_START_REGEX := rfl
      rw [heq] at hr
      exact RESERVED_CASE_START_REGEX_consumed _ _ hr
    · have heq : (mkTokenizer cfg).REGEX_MAP TokenType.RESERVED_CASE_END =
          RESERVED_CASE_END_REGEX := rfl
      rw [heq] at hr
      exact RESERVED_CASE_END_REGEX_consumed _ _ hr
    · have heq : (mkTokenizer cfg).REGEX_MAP TokenType.RESERVED_COMMAND =
          createReservedWordRegex cfg.reservedCommands := rfl
      rw [heq] at hr
      obtain ⟨hne, hrest⟩ := createReservedWordRegex_consumed _ _ _ hr
      exact ⟨hne hcmd, hrest⟩
    · have heq : (mkTokenizer cfg).REGEX_MAP TokenType.RESERVED_BINARY_COMMAND =
          createReservedWordRegex cfg.reservedBinaryCommands := rfl
      rw [heq] at hr
      obtain ⟨hne, hrest⟩ := createReservedWordRegex_consumed _ _ _ hr
      exact ⟨hne hbin, hrest⟩
    · have heq : (mkTokenizer cfg).REGEX_MAP TokenType.RESERVED_DEPENDENT_CLAUSE =
          createReservedWordRegex cfg.reservedDependentClauses := rfl
      rw [heq] at hr
      obtain ⟨hne, hrest⟩ := createReservedWordRegex_consumed _ _ _ hr
      exact ⟨hne hdep, hrest⟩
    · have heq : (mkTokenizer cfg).REGEX_MAP TokenType.RESERVED_LOGICAL_OPERATOR =
          createReservedWordRegex
            (cfg.reservedLogicalOperators.getD [codes "AND", codes "OR"]) := rfl
      rw [heq] at hr
      obtain ⟨hne, hrest⟩ := createReservedWordRegex_consumed _ _ _ hr
      exact ⟨hne hlog, hrest⟩
    · have heq : (mkTokenizer cfg).REGEX_MAP TokenType.RESERVED_KEYWORD =
          createReservedWordRegex cfg.reservedKeywords := rfl
      rw [heq] at hr
      obtain ⟨hne, hrest⟩ := createReservedWordRegex_consumed _ _ _ hr
      exact ⟨hne hkw, hrest⟩
    · have heq : (mkTokenizer cfg).REGEX_MAP TokenType.RESERVED_JOIN_CONDITION =
          createReservedWordRegex
            (cfg.reservedJoinConditions.getD [codes "ON", codes "USING"]) := rfl
      rw [heq] at hr
      obtain ⟨hne, hrest⟩ := createReservedWordRegex_consumed _ _ _ hr
      exact ⟨hne hjoin, hrest⟩
  · have hr := matchRx_inv _ _ _ _ _ _ hatt
    have heq : (mkTokenizer cfg).REGEX_MAP TokenType.IDENT =
        createIdentRegex cfg.specialIdentChars := rfl
    rw [heq] at hr
    exact createIdentRegex_consumed _ _ _ hr
  · have hr := matchRx_inv _ _ _ _ _ _ hatt
    have heq : (mkTokenizer cfg).REGEX_MAP TokenType.OPERATOR =
        createOperatorRegex builtinOperatorChars
          ([codes "<>", codes "<=", codes ">=", codes "!="] ++
            cfg.operators.getD []) := rfl
    rw [heq] at hr
    obtain ⟨hne, hrest⟩ := createOperatorRegex_consumed _ _ _ _ hr
    refine ⟨hne ?_, hrest⟩
    intro w hw
    simp only [List.mem_append, List.mem_cons, List.not_mem_nil, or_false] at hw
    rcases hw with (rfl | rfl | rfl | rfl) | hw
    · simp [codes]
    · simp [codes]
    · simp [codes]
    · simp [codes]
    · exact hops w hw

theorem noStall_mkTokenizer (cfg : TokenizerOptions) (hwf : WellFormedCfg cfg) :
    NoStall (mkTokenizer cfg) :=
  fun input previousToken token h =>
    (getNextToken_mkTokenizer_consumed cfg hwf input previousToken token h).1

theorem soundMatch_mkTokenizer (cfg : TokenizerOptions) (hwf : WellFormedCfg cfg) :
    SoundMatch (mkTokenizer cfg) :=
  fun input previousToken token h =>
    (getNextToken_mkTokenizer_consumed cfg hwf input previousToken token h).2

theorem wellFormed_fromCfg : WellFormedCfg fromCfg := by
  unfold WellFormedCfg fromCfg
  refine ⟨?_, ?_, ?_, ?_, ?_, ?_, ?_, ?_, ?_, ?_⟩ <;> decide

theorem noStall_Tfrom : NoStall Tfrom :=
  noStall_mkTokenizer fromCfg wellFormed_fromCfg

theorem soundMatch_Tfrom : SoundMatch Tfrom :=
  soundMatch_mkTokenizer fromCfg wellFormed_fromCfg

/-- C9: Tokenizing the empty input string returns the empty token sequence
and raises no error (for the source's default identity preprocess hook). -/
theorem tokenize_empty_input (t : Tokenizer)
    (hpre : t.preprocess = defaultPreprocess) :
    t.tokenize [] = TokResult.ok [] := by
  simp [Tokenizer.tokenize, Tokenizer.tokenizeLoop, hpre, defaultPreprocess]

/-- Witness for C9 at the concrete `FROM`-command tokenizer. -/
theorem tokenize_empty_input_witness : Tfrom.tokenize [] = TokResult.ok [] :=
  tokenize_empty_input Tfrom rfl

/-- C3: if the previously emitted token's value is the literal dot, no
reserved-word category can match, and concretely `mytable.from` with `FROM`
configured as a reserved command tokenizes as identifier, operator dot,
identifier. -/
theorem dot_guard_reserved_word :
    (∀ (t : Tokenizer) (input : Str) (p : Token), p.value = codes "." →
        t.matchReservedWordToken input (some p) = none) ∧
    Tfrom.tokenize (codes "mytable.from") =
      TokResult.ok
        [{ type := TokenType.IDENT, text := codes "mytable", value := codes "mytable" },
         { type := TokenType.OPERATOR, text := codes ".", value := codes "." },
         { type := TokenType.IDENT, text := codes "from", value := codes "from" }] := by
  constructor
  · intro t input p hp
    unfold Tokenizer.matchReservedWordToken
    rw [if_pos (by simp [hp])]
  · decide

/-- Witness for C3: the guard fires at a concrete dot token. -/
theorem dot_guard_reserved_word_witness :
    Tfrom.matchReservedWordToken (codes "from")
      (some { type := TokenType.OPERATOR, text := codes ".", value := codes "." }) =
      none :=
  dot_guard_reserved_word.1 Tfrom (codes "from")
    { type := TokenType.OPERATOR, text := codes ".", value := codes "." } rfl

/-- C2: the token categories are tried in the fixed priority order of the
cascade (first match wins), and inside the reserved-word step the
subcategories are tried in their own fixed order once the dot guard passes. -/
theorem cascade_fixed_priority_order :
    (∀ (t : Tokenizer) (input : Str) (previousToken : Option Token),
        t.getNextToken input previousToken =
          firstSome (fun attempt => attempt input) (priorityCascade t previousToken)) ∧
    (∀ (t : Tokenizer) (input : Str) (previousToken : Option Token),
        previousToken.map Token.value ≠ some (codes ".") →
        t.matchReservedWordToken input previousToken =
          firstSome (fun tokenType => t.matchReservedToken tokenType input)
            reservedCascadeOrder) :=
  ⟨getNextToken_eq_firstSome, matchReservedWordToken_eq_firstSome⟩

/-- Witness for C2 at a concrete tokenizer, input and previous token. -/
theorem cascade_fixed_priority_order_witness :
    Tfrom.getNextToken (codes "from") none =
      firstSome (fun attempt => attempt (codes "from")) (priorityCascade Tfrom none) ∧
    Tfrom.matchReservedWordToken (codes "from") none =
      firstSome (fun tokenType => Tfrom.matchReservedToken tokenType (codes "from"))
        reservedCascadeOrder :=
  ⟨cascade_fixed_priority_order.1 Tfrom (codes "from") none,
   cascade_fixed_priority_order.2 Tfrom (codes "from") none (by simp)⟩

/-- C7: every reserved-word token's value is the canonical transform
(uppercase, whitespace runs collapsed) of its text, the text being exactly
what the reserved-word regex matched; and the canonical transform is
idempotent. -/
theorem reserved_value_canonical_and_idempotent :
    (∀ (t : Tokenizer) (input : Str) (previousToken : Option Token) (token : Token),
        t.matchReservedWordToken input previousToken = some token →
        token.value = toCanonicalKeyword token.text ∧
        ∃ tokenType ∈ reservedCascadeOrder,
          t.REGEX_MAP tokenType input = some token.text) ∧
    (∀ s : Str, toCanonicalKeyword (toCanonicalKeyword s) = toCanonicalKeyword s) := by
  constructor
  · intro t input previousToken token h
    obtain ⟨hval, tokenType, hmem, hreg⟩ :=
      matchReservedWordToken_inv t input previousToken token h
    exact ⟨hval, tokenType, hmem, hreg⟩
  · exact toCanonicalKeyword_idem

/-- Witness for C7: lowercase `from` matched as a reserved command gets the
canonical uppercase value, and idempotence at a concrete string. -/
theorem reserved_value_canonical_and_idempotent_witness :
    (({ type := TokenType.RESERVED_COMMAND, text := codes "from",
        value := codes "FROM" } : Token).value =
      toCanonicalKeyword
        ({ type := TokenType.RESERVED_COMMAND, text := codes "from",
           value := codes "FROM" } : Token).text ∧
      ∃ tokenType ∈ reservedCascadeOrder,
        Tfrom.REGEX_MAP tokenType (codes "from") = some (codes "from")) ∧
    toCanonicalKeyword (toCanonicalKeyword (codes "a  b")) =
      toCanonicalKeyword (codes "a  b") :=
  ⟨reserved_value_canonical_and_idempotent.1 Tfrom (codes "from") none
      { type := TokenType.RESERVED_COMMAND, text := codes "from", value := codes "FROM" }
      (by decide),
   reserved_value_canonical_and_idempotent.2 (codes "a  b")⟩

/-- C10: a quoted identifier is emitted with the same token type as a plain
identifier (`IDENT`), its text and value both the matched substring with the
quotes included; concretely a double-quoted and an unquoted identifier get
the same token type. -/
theorem quoted_ident_same_type_as_plain :
    (∀ (t : Tokenizer) (input : Str) (token : Token),
        t.matchQuotedIdentToken input = some token →
        token.type = TokenType.IDENT ∧ token.value = token.text ∧
        t.quotedIdentRegex input = some token.text) ∧
    Tdq.tokenize (codes "\"ab\"") =
      TokResult.ok
        [{ type := TokenType.IDENT, text := codes "\"ab\"", value := codes "\"ab\"" }] ∧
    Tdq.tokenize (codes "ab") =
      TokResult.ok
        [{ type := TokenType.IDENT, text := codes "ab", value := codes "ab" }] := by
  refine ⟨?_, by decide, by decide⟩
  intro t input token h
  unfold Tokenizer.matchQuotedIdentToken Tokenizer.matchRx at h
  cases hm : t.quotedIdentRegex input with
  | none => rw [hm] at h; exact absurd h (by simp)
  | some m =>
    rw [hm] at h
    simp only [Option.some.injEq] at h
    rw [← h]
    exact ⟨rfl, rfl, rfl⟩

/-- Witness for C10 at the double-quote tokenizer and a concrete input. -/
theorem quoted_ident_same_type_as_plain_witness :
    ({ type := TokenType.IDENT, text := codes "\"ab\"",
       value := codes "\"ab\"" } : Token).type = TokenType.IDENT ∧
    ({ type := TokenType.IDENT, text := codes "\"ab\"",
       value := codes "\"ab\"" } : Token).value =
      ({ type := TokenType.IDENT, text := codes "\"ab\"",
         value := codes "\"ab\"" } : Token).text ∧
    Tdq.quotedIdentRegex (codes "\"ab\"") = some (codes "\"ab\"") :=
  quoted_ident_same_type_as_plain.1 Tdq (codes "\"ab\"")
    { type := TokenType.IDENT, text := codes "\"ab\"", value := codes "\"ab\"" }
    (by decide)

theorem matchPlaceholderToken_eq_firstSome (t : Tokenizer) (input : Str) :
    t.matchPlaceholderToken input =
      firstSome
        (fun p =>
          match t.matchRx input TokenType.PLACEHOLDER p.regex (fun s => s) with
          | some token => some { token with key := some (p.parseKey token.value) }
          | none => none)
        t.placeholderPatterns := by
  unfold Tokenizer.matchPlaceholderToken
  induction t.placeholderPatterns with
  | nil => rfl
  | cons p ps ih =>
    simp only [matchPlaceholderLoop, firstSome]
    cases t.matchRx input TokenType.PLACEHOLDER p.regex (fun s => s) with
    | some tok => rfl
    | none => exact ih

/-- C6: placeholder styles are tried in the fixed configuration order
(named, quoted-named, numbered, positional), the first match wins,
unconfigured styles are omitted from the pattern list entirely, and the
emitted key is the text with the one-character prefix stripped (named and
numbered), empty for the positional marker, and prefix/quotes stripped plus
backslash-unescaping for quoted-named styles. -/
theorem placeholder_styles_order_and_keys :
    (∀ (t : Tokenizer) (input : Str),
        t.matchPlaceholderToken input =
          firstSome
            (fun p =>
              match t.matchRx input TokenType.PLACEHOLDER p.regex (fun s => s) with
              | some token => some { token with key := some (p.parseKey token.value) }
              | none => none)
            t.placeholderPatterns) ∧
    (mkTokenizer {}).placeholderPatterns.length = 0 ∧
    (mkTokenizer allPlaceholdersCfg).placeholderPatterns.length = 4 ∧
    Tnumbered.tokenize (codes ":42") =
      TokResult.ok
        [{ type := TokenType.PLACEHOLDER, text := codes ":42", value := codes ":42",
           key := some (codes "42") }] ∧
    Tnamed.tokenize (codes "@foo") =
      TokResult.ok
        [{ type := TokenType.PLACEHOLDER, text := codes "@foo", value := codes "@foo",
           key := some (codes "foo") }] ∧
    Tpositional.tokenize (codes "?") =
      TokResult.ok
        [{ type := TokenType.PLACEHOLDER, text := codes "?", value := codes "?",
           key := some [] }] ∧
    Tquoted.tokenize (codes ":\"a\\\"b\"") =
      TokResult.ok
        [{ type := TokenType.PLACEHOLDER, text := codes ":\"a\\\"b\"",
           value := codes ":\"a\\\"b\"", key := some (codes "a\"b") }] ∧
    TnumberedAndPositional.tokenize (codes "?1") =
      TokResult.ok
        [{ type := TokenType.PLACEHOLDER, text := codes "?1", value := codes "?1",
           key := some (codes "1") }] ∧
    TnumberedAndPositional.tokenize (codes "?") =
      TokResult.ok
        [{ type := TokenType.PLACEHOLDER, text := codes "?", value := codes "?",
           key := some [] }] := by
  refine ⟨matchPlaceholderToken_eq_firstSome, by decide, by decide, by decide,
    by decide, by decide, by decide, by decide, by decide⟩

/-- Counterexample for C8 as stated: the number pattern accepts a leading
minus that is separated from the digits by whitespace (the accepted text's
second code point is a space, not a digit), so adjacency is not required. -/
theorem number_minus_adjacency_counterexample :
    NUMBER_REGEX (codes "- 5") = some (codes "- 5") ∧
    (codes "- 5").getD 1 0 = 32 ∧ isJsSpace 32 = true ∧ isDigitCode 32 = false := by
  refine ⟨by decide, by decide, by decide, by decide⟩

/-- C8 (amended): the number pattern accepts an optional leading minus
possibly separated from the digits by whitespace (adjacent minus and
whitespace-separated minus both accepted, minus before a non-digit
rejected), and the number category is tried before the operator category,
so a minus accepted by the number pattern is never claimed by the operator
rule. -/
theorem number_minus_and_priority :
    (NUMBER_REGEX (codes "-5") = some (codes "-5") ∧
     NUMBER_REGEX (codes "- 5") = some (codes "- 5") ∧
     NUMBER_REGEX (codes "-a") = none) ∧
    (∀ (t : Tokenizer) (input : Str) (previousToken : Option Token) (token : Token),
        t.matchToken TokenType.LINE_COMMENT input = none →
        t.matchToken TokenType.BLOCK_COMMENT input = none →
        t.matchToken TokenType.STRING input = none →
        t.matchQuotedIdentToken input = none →
        t.matchToken TokenType.BLOCK_START input = none →
        t.matchToken TokenType.BLOCK_END input = none →
        t.matchPlaceholderToken input = none →
        t.matchToken TokenType.NUMBER input = some token →
        t.getNextToken input previousToken = some token) := by
  constructor
  · exact ⟨by decide, by decide, by decide⟩
  · intro t input previousToken token h1 h2 h3 h4 h5 h6 h7 h8
    unfold Tokenizer.getNextToken
    rw [h1, Option.none_orElse, h2, Option.none_orElse, h3, Option.none_orElse,
      h4, Option.none_orElse, h5, Option.none_orElse, h6, Option.none_orElse,
      h7, Option.none_orElse, h8, Option.some_orElse]

/-- Witness for C8 (amended) at the default tokenizer on `-5`. -/
theorem number_minus_and_priority_witness :
    Tdefault.getNextToken (codes "-5") none =
      some { type := TokenType.NUMBER, text := codes "-5", value := codes "-5" } :=
  number_minus_and_priority.2 Tdefault (codes "-5") none
    { type := TokenType.NUMBER, text := codes "-5", value := codes "-5" }
    (by decide) (by decide) (by decide) (by decide) (by decide) (by decide)
    (by decide) (by decide)

/-- Counterexample for C1 as stated: on input consisting of one space the
scan succeeds with an empty token sequence, whose reassembly is empty and
does not reproduce the input — trailing whitespace is consumed without
being recorded on any token. -/
theorem tokenize_reassembly_exact_counterexample :
    Tnull.tokenize (codes " ") = TokResult.ok [] ∧
    reassemble [] ≠ codes " " := by
  refine ⟨by decide, by decide⟩

/-- C1 (amended): for a tokenizer whose preprocess hook is the identity and
whose matched text always consumes an actual prefix of the remaining input,
a successful tokenize reproduces the original input up to a trailing run of
whitespace: the reassembly of whitespaceBefore and text over all tokens,
followed by some all-whitespace trailing string, equals the input. -/
theorem tokenize_reassembly_up_to_trailing_whitespace
    (t : Tokenizer) (input : Str) (out : List Token)
    (hpre : t.preprocess = defaultPreprocess) (hsound : SoundMatch t)
    (h : t.tokenize input = TokResult.ok out) :
    ∃ trailing, (∀ c ∈ trailing, isJsSpace c = true) ∧
      reassemble out ++ trailing = input := by
  unfold Tokenizer.tokenize at h
  cases hl : t.tokenizeLoop (input.length + 1) input [] none with
  | ok toks =>
    rw [hl] at h
    simp only [hpre, defaultPreprocess, TokResult.ok.injEq] at h
    obtain ⟨tr, htr, he⟩ := tokenizeLoop_reassemble t hsound _ _ _ _ _ hl
    refine ⟨tr, htr, ?_⟩
    rw [h] at he
    simpa [reassemble] using he
  | parseError e => rw [hl] at h; exact absurd h (by simp)
  | outOfFuel => rw [hl] at h; exact absurd h (by simp)

/-- Witness for C1 (amended) at the FROM-command tokenizer on an input with
trailing whitespace: reassembly of the two scanned tokens plus a whitespace
run reproduces the input. -/
theorem tokenize_reassembly_up_to_trailing_whitespace_witness :
    ∃ trailing, (∀ c ∈ trailing, isJsSpace c = true) ∧
      reassemble
        [{ type := TokenType.RESERVED_COMMAND, text := codes "from",
           value := codes "FROM" },
         { type := TokenType.IDENT, text := codes "mytable",
           value := codes "mytable", whitespaceBefore := codes " " }] ++ trailing =
        codes "from mytable " :=
  tokenize_reassembly_up_to_trailing_whitespace Tfrom (codes "from mytable ")
    [{ type := TokenType.RESERVED_COMMAND, text := codes "from",
       value := codes "FROM" },
     { type := TokenType.IDENT, text := codes "mytable",
       value := codes "mytable", whitespaceBefore := codes " " }]
    rfl soundMatch_Tfrom (by decide)

/-- C4: every call to tokenize terminates — with a matcher table that never
produces an empty matched text, the scan loop never exhausts its
`input.length + 1` fuel, because every iteration that emits a token strictly
shortens the remaining input. -/
theorem tokenize_terminates (t : Tokenizer) (input : Str) (hns : NoStall t) :
    t.tokenize input ≠ TokResult.outOfFuel := by
  unfold Tokenizer.tokenize
  rcases tokenizeLoop_characterize t hns (input.length + 1) input [] none
      (by omega) with ⟨out, ho⟩ | ⟨rest, prev, _, _, he⟩
  · rw [ho]; simp
  · rw [he]; simp

/-- Witness for C4 at the FROM-command tokenizer, whose constructed matcher
table is proven non-stalling. -/
theorem tokenize_terminates_witness :
    Tfrom.tokenize (codes "from mytable") ≠ TokResult.outOfFuel :=
  tokenize_terminates Tfrom (codes "from mytable") noStall_Tfrom

/-- C5: tokenize has exactly one failure mode — for a non-stalling matcher
table, every call either returns a token list, or returns a lexical error
produced at a non-empty whitespace-stripped position where no cascade
category matches, carrying the first at most 100 code points of the
unconsumed input, with no tokens returned. -/
theorem tokenize_single_failure_mode (t : Tokenizer) (input : Str)
    (hns : NoStall t) :
    (∃ out, t.tokenize input = TokResult.ok out) ∨
    (∃ rest prev, rest ≠ [] ∧ t.getNextToken rest prev = none ∧
      t.tokenize input = TokResult.parseError (rest.take 100) ∧
      (rest.take 100).length ≤ 100) := by
  unfold Tokenizer.tokenize
  rcases tokenizeLoop_characterize t hns (input.length + 1) input [] none
      (by omega) with ⟨out, ho⟩ | ⟨rest, prev, hne, hg, he⟩
  · exact Or.inl ⟨t.preprocess out, by rw [ho]⟩
  · refine Or.inr ⟨rest, prev, hne, hg, by rw [he], ?_⟩
    rw [List.length_take]
    exact min_le_left _ _

/-- Witness for C5 at the FROM-command tokenizer on an input ending in a
code point no category matches (which concretely takes the failure branch). -/
theorem tokenize_single_failure_mode_witness :
    (∃ out, Tfrom.tokenize (codes "from £") = TokResult.ok out) ∨
    (∃ rest prev, rest ≠ [] ∧ Tfrom.getNextToken rest prev = none ∧
      Tfrom.tokenize (codes "from £") = TokResult.parseError (rest.take 100) ∧
      (rest.take 100).length ≤ 100) :=
  tokenize_single_failure_mode Tfrom (codes "from £") noStall_Tfrom
